import Mathlib

/-!
Verification of the infinitree cryptographic object layer against its
specification.  The development shallowly embeds the Rust sources
(`object.rs`, `object/write_balancer.rs`, `crypto/yubikey_scheme.rs`)
as executable Lean definitions: byte buffers are `List Nat`, mutation is
explicit state passing, fallible operations return `Except`/`Option`, and
a Rust panic is modelled as `Option.none`.
-/

namespace Infinitree

/-- Byte strings (`&[u8]` / `Vec<u8>`); each element stands for one byte. -/
abbrev Bytes := List Nat

/-- Models `dst[i .. i + v.length].copy_from_slice(v)` on a list: the
`v.length` bytes starting at offset `i` are replaced by `v`.  Faithful to
`copy_from_slice` whenever `i + v.length ≤ l.length` (the callers below
only use it in that range; out of range, Rust would panic). -/
def setSlice (l : Bytes) (i : Nat) (v : Bytes) : Bytes :=
  l.take i ++ v ++ l.drop (i + v.length)

theorem setSlice_length (l : Bytes) (i : Nat) (v : Bytes)
    (h : i + v.length ≤ l.length) : (setSlice l i v).length = l.length := by
  simp only [setSlice, List.length_append, List.length_take, List.length_drop]
  omega

theorem setSlice_take (l : Bytes) (i : Nat) (v : Bytes) (h : i ≤ l.length) :
    (setSlice l i v).take i = l.take i := by
  have hlen : (l.take i).length = i := by
    simp only [List.length_take]; omega
  simp only [setSlice, List.append_assoc]
  rw [List.take_append_of_le_length (le_of_eq hlen.symm), List.take_take]
  simp

theorem setSlice_middle (l : Bytes) (i : Nat) (v : Bytes) (h : i ≤ l.length) :
    ((setSlice l i v).drop i).take v.length = v := by
  have hlen : (l.take i).length = i := by
    simp only [List.length_take]; omega
  simp only [setSlice, List.append_assoc]
  rw [List.drop_left' hlen, List.take_left' rfl]

theorem setSlice_drop (l : Bytes) (i : Nat) (v : Bytes) (h : i ≤ l.length) :
    (setSlice l i v).drop (i + v.length) = l.drop (i + v.length) := by
  have hlen : (l.take i ++ v).length = i + v.length := by
    simp only [List.length_append, List.length_take]; omega
  simp only [setSlice, List.append_assoc]
  rw [← List.append_assoc, List.drop_left' hlen]

theorem setSlice_zero (l : Bytes) (v : Bytes) :
    setSlice l 0 v = v ++ l.drop v.length := by
  simp [setSlice]

/-- Modelled from the spec: `BLOCK_SIZE` is the fixed object-buffer
capacity, "typically 4 MiB" (§9, Pooled buffers); the constant itself is
defined outside the excerpted sources.  None of the theorems below depend
on its exact value. -/
def BLOCK_SIZE : Nat := 4 * 1024 * 1024

/-- `std::io::ErrorKind` values produced by `Object`'s I/O impls. -/
inductive IoErrorKind where
  | invalidInput
  | unexpectedEof
  deriving DecidableEq, Repr

/-- `std::io::SeekFrom`: `Start(u64)`, `End(i64)`, `Current(i64)`. -/
inductive SeekFrom where
  | start (s : Nat)
  | fromEnd (e : Int)
  | current (c : Int)
  deriving Repr

/-- `Object<T>` from `object.rs`: an identifier, a backing buffer and a
cursor.  The `id` plays no role in the buffer I/O claims. -/
structure Object where
  id : Bytes
  buffer : Bytes
  cursor : Nat
  deriving Repr

/-- `Object::capacity`: always the `BLOCK_SIZE` constant. -/
def Object.capacity (_ : Object) : Nat := BLOCK_SIZE

/-- `Object::position`. -/
def Object.position (o : Object) : Nat := o.cursor

/-- `impl io::Write for Object`, `write`: copies `buf` into
`buffer[cursor .. cursor + buf.len()]` and advances the cursor.  The Rust
code performs an unchecked slice index, so when
`cursor + buf.len() > buffer.len()` it panics; the panic is modelled as
`none`.  There is no error return path in the source. -/
def Object.write (o : Object) (buf : Bytes) : Option (Object × Nat) :=
  let ofs := o.cursor
  let len := buf.length
  if ofs + len ≤ o.buffer.length then
    some ({ o with buffer := setSlice o.buffer ofs buf, cursor := ofs + len }, len)
  else
    none

/-- `impl io::Read for Object`, `read`: `bufLen` is the length of the
caller's output slice.  Returns the post-state together with either the
bytes copied into the caller's slice (`Ok`) or `UnexpectedEof`. -/
def Object.read (o : Object) (bufLen : Nat) : Object × Except IoErrorKind Bytes :=
  let e := bufLen + o.cursor
  let inner := o.buffer
  if e > inner.length then
    (o, .error .unexpectedEof)
  else
    ({ o with cursor := e }, .ok ((inner.drop o.cursor).take bufLen))

/-- `impl io::Seek for Object`, `seek`: returns the post-state and either
the new position (`Ok`) or `InvalidInput`. -/
def Object.seek (o : Object) (pos : SeekFrom) : Object × Except IoErrorKind Nat :=
  let umax : Nat := o.capacity
  let imax : Int := (o.capacity : Int)
  match pos with
  | .start s =>
    if s > umax then (o, .error .invalidInput)
    else ({ o with cursor := s }, .ok s)
  | .fromEnd e =>
    if e < 0 then (o, .error .invalidInput)
    else if e > imax then (o, .error .invalidInput)
    else
      let c := o.capacity - e.toNat
      ({ o with cursor := c }, .ok c)
  | .current c =>
    let newPos : Int := (o.cursor : Int) + c
    if newPos < 0 then (o, .error .invalidInput)
    else if newPos > imax then (o, .error .invalidInput)
    else ({ o with cursor := newPos.toNat }, .ok newPos.toNat)

/-- C2 (counterexample): the claim says a write with
`cursor + len(buf) > BLOCK_SIZE` "returns an error (does not panic, does
not modify the buffer or cursor)".  The source has no error path at all:
it slice-indexes `buffer[cursor .. cursor + len]` unchecked, which panics
(modelled as `none`) instead of returning an error value.  Concretely, on a
full `BLOCK_SIZE` buffer with `cursor = BLOCK_SIZE`, writing one byte
panics. -/
theorem C2_write_counterexample :
    Object.write ⟨[], List.replicate BLOCK_SIZE 0, BLOCK_SIZE⟩ [0] = none := by
  simp only [Object.write, List.length_replicate, List.length_cons, List.length_nil]
  rw [if_neg (by omega)]

/-- C2 (amended): for every `Object` whose buffer has length `BLOCK_SIZE`,
`write(buf)` with `cursor + len(buf) ≤ BLOCK_SIZE` appends `buf` at the
cursor (bytes before the cursor and after `cursor + len(buf)` unchanged,
the written window equals `buf`, the buffer keeps length `BLOCK_SIZE`),
advances the cursor by `len(buf)` and returns `len(buf)`; when
`cursor + len(buf) > BLOCK_SIZE` the write panics (no error value is
returned and no state survives). -/
theorem C2_write_contract (o : Object) (buf : Bytes)
    (h : o.buffer.length = BLOCK_SIZE) :
    (o.cursor + buf.length ≤ BLOCK_SIZE →
      Object.write o buf
        = some ({ o with buffer := setSlice o.buffer o.cursor buf,
                         cursor := o.cursor + buf.length }, buf.length)
      ∧ (setSlice o.buffer o.cursor buf).length = BLOCK_SIZE
      ∧ (setSlice o.buffer o.cursor buf).take o.cursor = o.buffer.take o.cursor
      ∧ ((setSlice o.buffer o.cursor buf).drop o.cursor).take buf.length = buf
      ∧ (setSlice o.buffer o.cursor buf).drop (o.cursor + buf.length)
          = o.buffer.drop (o.cursor + buf.length))
    ∧ (BLOCK_SIZE < o.cursor + buf.length → Object.write o buf = none) := by
  constructor
  · intro hle
    have hfit : o.cursor + buf.length ≤ o.buffer.length := by omega
    have hcur : o.cursor ≤ o.buffer.length := by omega
    refine ⟨?_, ?_, setSlice_take _ _ _ hcur, setSlice_middle _ _ _ hcur,
      setSlice_drop _ _ _ hcur⟩
    · simp only [Object.write]
      rw [if_pos hfit]
    · rw [setSlice_length _ _ _ hfit, h]
  · intro hgt
    simp only [Object.write]
    rw [if_neg (by omega)]

theorem C2_write_contract_witness :
    Object.write ⟨[], List.replicate BLOCK_SIZE 0, 0⟩ [7]
      = some (⟨[], setSlice (List.replicate BLOCK_SIZE 0) 0 [7], 1⟩, 1) :=
  ((C2_write_contract ⟨[], List.replicate BLOCK_SIZE 0, 0⟩ [7]
      (by simp)).1 (by simp [BLOCK_SIZE])).1

/-- C3 (counterexample): the claim says a seek target outside
`[0, BLOCK_SIZE]` is "clamped to the nearest bound".  The source instead
returns `InvalidInput` and leaves the cursor where it was: seeking to
`Start(BLOCK_SIZE + 1)` on a fresh object errors with the cursor still at
`0`, not clamped to `BLOCK_SIZE`. -/
theorem C3_seek_counterexample :
    Object.seek ⟨[], [], 0⟩ (.start (BLOCK_SIZE + 1))
      = (⟨[], [], 0⟩, .error .invalidInput)
    ∧ (Object.seek ⟨[], [], 0⟩ (.start (BLOCK_SIZE + 1))).1.cursor ≠ BLOCK_SIZE := by
  have hs : Object.seek ⟨[], [], 0⟩ (.start (BLOCK_SIZE + 1))
      = (⟨[], [], 0⟩, .error .invalidInput) := by
    simp only [Object.seek, Object.capacity]
    rw [if_pos (by omega)]
  refine ⟨hs, ?_⟩
  rw [hs]
  simp [BLOCK_SIZE]

/-- The seek requests whose target position falls outside
`[0, BLOCK_SIZE]` for an object whose cursor is `cursor`: `Start(s)` with
`s > BLOCK_SIZE`; `End(e)` with `e < 0` or `e > BLOCK_SIZE`; `Current(c)`
with `cursor + c < 0` or `cursor + c > BLOCK_SIZE`. -/
def seekOutOfRange (cursor : Nat) : SeekFrom → Prop
  | .start s => BLOCK_SIZE < s
  | .fromEnd e => e < 0 ∨ (BLOCK_SIZE : Int) < e
  | .current c =>
      (cursor : Int) + c < 0 ∨ (BLOCK_SIZE : Int) < (cursor : Int) + c

/-- C3 (amended): every successful seek leaves the cursor in
`[0, BLOCK_SIZE]` and returns that cursor; every seek whose target falls
outside `[0, BLOCK_SIZE]` returns an `InvalidInput` error with the object
(hence the cursor) unchanged, and any erroring seek leaves the object
unchanged — out-of-range targets are rejected, never clamped. -/
theorem C3_seek_bounds (o : Object) (pos : SeekFrom) :
    (∀ o' p, Object.seek o pos = (o', .ok p) → o'.cursor = p ∧ p ≤ BLOCK_SIZE)
    ∧ (∀ o' e, Object.seek o pos = (o', .error e) → o' = o)
    ∧ (seekOutOfRange o.cursor pos
        → Object.seek o pos = (o, .error .invalidInput)) := by
  cases pos with
  | start s =>
    refine ⟨?_, ?_, ?_⟩
    · intro o' p hx
      simp only [Object.seek, Object.capacity] at hx
      split_ifs at hx with h1
      · exact absurd (Prod.mk.injEq .. ▸ hx).2 (by simp)
      · obtain ⟨ho, hp⟩ := Prod.mk.injEq .. ▸ hx
        obtain rfl := Except.ok.inj hp
        exact ⟨by rw [← ho], by omega⟩
    · intro o' e hx
      simp only [Object.seek, Object.capacity] at hx
      split_ifs at hx with h1
      · exact ((Prod.mk.injEq .. ▸ hx).1).symm
      · exact absurd (Prod.mk.injEq .. ▸ hx).2 (by simp)
    · intro htgt
      have h1 : BLOCK_SIZE < s := htgt
      simp only [Object.seek, Object.capacity]
      rw [if_pos (by omega)]
  | fromEnd e =>
    refine ⟨?_, ?_, ?_⟩
    · intro o' p hx
      simp only [Object.seek, Object.capacity] at hx
      split_ifs at hx with h1 h2
      · exact absurd (Prod.mk.injEq .. ▸ hx).2 (by simp)
      · exact absurd (Prod.mk.injEq .. ▸ hx).2 (by simp)
      · obtain ⟨ho, hp⟩ := Prod.mk.injEq .. ▸ hx
        obtain rfl := Except.ok.inj hp
        exact ⟨by rw [← ho], by omega⟩
    · intro o' err hx
      simp only [Object.seek, Object.capacity] at hx
      split_ifs at hx with h1 h2
      · exact ((Prod.mk.injEq .. ▸ hx).1).symm
      · exact ((Prod.mk.injEq .. ▸ hx).1).symm
      · exact absurd (Prod.mk.injEq .. ▸ hx).2 (by simp)
    · intro htgt
      have h1 : e < 0 ∨ (BLOCK_SIZE : Int) < e := htgt
      simp only [Object.seek, Object.capacity]
      rcases h1 with h1 | h1
      · rw [if_pos (by omega)]
      · rw [if_neg (by omega), if_pos (by omega)]
  | current c =>
    refine ⟨?_, ?_, ?_⟩
    · intro o' p hx
      simp only [Object.seek, Object.capacity] at hx
      split_ifs at hx with h1 h2
      · exact absurd (Prod.mk.injEq .. ▸ hx).2 (by simp)
      · exact absurd (Prod.mk.injEq .. ▸ hx).2 (by simp)
      · obtain ⟨ho, hp⟩ := Prod.mk.injEq .. ▸ hx
        obtain rfl := Except.ok.inj hp
        refine ⟨by rw [← ho], ?_⟩
        have : ((o.cursor : Int) + c).toNat ≤ BLOCK_SIZE := by omega
        exact this
    · intro o' err hx
      simp only [Object.seek, Object.capacity] at hx
      split_ifs at hx with h1 h2
      · exact ((Prod.mk.injEq .. ▸ hx).1).symm
      · exact ((Prod.mk.injEq .. ▸ hx).1).symm
      · exact absurd (Prod.mk.injEq .. ▸ hx).2 (by simp)
    · intro htgt
      have h1 : (o.cursor : Int) + c < 0 ∨ (BLOCK_SIZE : Int) < (o.cursor : Int) + c :=
        htgt
      simp only [Object.seek, Object.capacity]
      rcases h1 with h1 | h1
      · rw [if_pos (by omega)]
      · rw [if_neg (by omega), if_pos (by omega)]

theorem C3_seek_bounds_witness :
    (((⟨[], [], 7⟩ : Object).seek (.current 3)).1.cursor = 10 ∧ 10 ≤ BLOCK_SIZE)
    ∧ Object.seek ⟨[], [], 7⟩ (.start (BLOCK_SIZE + 1))
        = (⟨[], [], 7⟩, .error .invalidInput)
    ∧ Object.seek ⟨[], [], 7⟩ (.fromEnd (-1))
        = (⟨[], [], 7⟩, .error .invalidInput) := by
  refine ⟨?_, ?_, ?_⟩
  case refine_2 =>
    exact (C3_seek_bounds ⟨[], [], 7⟩ (.start (BLOCK_SIZE + 1))).2.2
      (show BLOCK_SIZE < BLOCK_SIZE + 1 by omega)
  case refine_3 =>
    exact (C3_seek_bounds ⟨[], [], 7⟩ (.fromEnd (-1))).2.2
      (show (-1 : Int) < 0 ∨ (BLOCK_SIZE : Int) < -1 from Or.inl (by norm_num))
  have h := (C3_seek_bounds ⟨[], [], 7⟩ (.current 3)).1
    ((⟨[], [], 7⟩ : Object).seek (.current 3)).1 10
  have hev : (⟨[], [], 7⟩ : Object).seek (.current 3)
      = (((⟨[], [], 7⟩ : Object).seek (.current 3)).1, .ok 10) := by
    simp only [Object.seek, Object.capacity]
    rw [if_neg (by omega), if_neg (by simp [BLOCK_SIZE])]
    rfl
  exact h hev

/-- C4 (confirmed): `seek` supports `Start`, `End` and `Current`; a
request whose target falls outside `[0, BLOCK_SIZE]` (`Start(s)` with
`s > BLOCK_SIZE`; `End(e)` with `e < 0` or `e > BLOCK_SIZE`; `Current(c)`
with `cursor + c < 0` or `cursor + c > BLOCK_SIZE`) returns `InvalidInput`
with the object unchanged; otherwise the cursor becomes the requested
position (`s`, `BLOCK_SIZE - e`, or `cursor + c` respectively) and that
position is returned. -/
theorem C4_seek_cases (o : Object) :
    (∀ s : Nat,
      (BLOCK_SIZE < s → Object.seek o (.start s) = (o, .error .invalidInput))
      ∧ (s ≤ BLOCK_SIZE →
          Object.seek o (.start s) = ({ o with cursor := s }, .ok s)))
    ∧ (∀ e : Int,
      ((e < 0 ∨ (BLOCK_SIZE : Int) < e) →
          Object.seek o (.fromEnd e) = (o, .error .invalidInput))
      ∧ (0 ≤ e → e ≤ (BLOCK_SIZE : Int) →
          Object.seek o (.fromEnd e)
            = ({ o with cursor := BLOCK_SIZE - e.toNat },
               .ok (BLOCK_SIZE - e.toNat))))
    ∧ (∀ c : Int,
      (((o.cursor : Int) + c < 0 ∨ (BLOCK_SIZE : Int) < (o.cursor : Int) + c) →
          Object.seek o (.current c) = (o, .error .invalidInput))
      ∧ (0 ≤ (o.cursor : Int) + c → (o.cursor : Int) + c ≤ (BLOCK_SIZE : Int) →
          Object.seek o (.current c)
            = ({ o with cursor := ((o.cursor : Int) + c).toNat },
               .ok (((o.cursor : Int) + c).toNat)))) := by
  refine ⟨fun s => ⟨fun h1 => ?_, fun h1 => ?_⟩,
          fun e => ⟨fun h1 => ?_, fun h1 h2 => ?_⟩,
          fun c => ⟨fun h1 => ?_, fun h1 h2 => ?_⟩⟩
  · simp only [Object.seek, Object.capacity]
    rw [if_pos (by omega)]
  · simp only [Object.seek, Object.capacity]
    rw [if_neg (by omega)]
  · simp only [Object.seek, Object.capacity]
    rcases h1 with h1 | h1
    · rw [if_pos (by omega)]
    · rw [if_neg (by omega), if_pos (by omega)]
  · simp only [Object.seek, Object.capacity]
    rw [if_neg (by omega), if_neg (by omega)]
  · simp only [Object.seek, Object.capacity]
    rcases h1 with h1 | h1
    · rw [if_pos (by omega)]
    · rw [if_neg (by omega), if_pos (by omega)]
  · simp only [Object.seek, Object.capacity]
    rw [if_neg (by omega), if_neg (by omega)]

theorem C4_seek_cases_witness :
    Object.seek ⟨[], [], 0⟩ (.start 5) = (⟨[], [], 5⟩, .ok 5)
    ∧ Object.seek ⟨[], [], 0⟩ (.start (BLOCK_SIZE + 1))
        = (⟨[], [], 0⟩, .error .invalidInput)
    ∧ Object.seek ⟨[], [], 0⟩ (.fromEnd 1)
        = (⟨[], [], BLOCK_SIZE - 1⟩, .ok (BLOCK_SIZE - 1)) :=
  ⟨((C4_seek_cases ⟨[], [], 0⟩).1 5).2 (by simp [BLOCK_SIZE]),
   ((C4_seek_cases ⟨[], [], 0⟩).1 (BLOCK_SIZE + 1)).1 (by omega),
   ((C4_seek_cases ⟨[], [], 0⟩).2.1 1).2 (by omega) (by simp [BLOCK_SIZE])⟩

/-- C10 (confirmed): for a buffer of length `L`, `read` into an output
slice of length `n` returns `UnexpectedEof` with the object unchanged when
`cursor + n > L`, and otherwise copies exactly the bytes
`[cursor, cursor + n)`, advances the cursor by `n`, and returns `n` bytes
(never a short read). -/
theorem C10_read_contract (o : Object) (n : Nat) :
    (o.buffer.length < n + o.cursor →
      Object.read o n = (o, .error .unexpectedEof))
    ∧ (n + o.cursor ≤ o.buffer.length →
      Object.read o n
        = ({ o with cursor := n + o.cursor }, .ok ((o.buffer.drop o.cursor).take n))
      ∧ ((o.buffer.drop o.cursor).take n).length = n) := by
  constructor
  · intro h
    simp only [Object.read]
    rw [if_pos (by omega)]
  · intro h
    refine ⟨?_, ?_⟩
    · simp only [Object.read]
      rw [if_neg (by omega)]
    · simp only [List.length_take, List.length_drop]
      omega

theorem C10_read_contract_witness :
    Object.read ⟨[], [10, 20, 30], 1⟩ 2 = (⟨[], [10, 20, 30], 3⟩, .ok [20, 30])
    ∧ Object.read ⟨[], [10, 20, 30], 1⟩ 3
        = (⟨[], [10, 20, 30], 1⟩, .error .unexpectedEof) :=
  ⟨((C10_read_contract ⟨[], [10, 20, 30], 1⟩ 2).2 (by decide)).1,
   (C10_read_contract ⟨[], [10, 20, 30], 1⟩ 3).1 (by decide)⟩

/-- `ObjectError` from `object.rs` (payloads kept where the claims can
observe them). -/
inductive ObjectError where
  | Io
  | Backend
  | Compress
  | Decompress
  | ChunkTooLarge (max_size : Nat) (size : Nat)
  | BufferTooSmall (min_size : Nat)
  | Fatal
  | Serialize
  | Deserialize
  deriving DecidableEq, Repr

/-- `crypto::Digest`: a 32-byte content hash, opaque to the balancer. -/
abbrev Digest := Bytes

/-- `ChunkPointer`: opaque to the balancer; it only forwards it. -/
structure ChunkPointer where
  deriving DecidableEq, Repr

/-- The `Writer` trait (`object/writer.rs` interface as used by the
balancer): `write_chunk` and `flush` take `&mut self`, modelled as
state-passing functions on the writer type `W`. -/
structure WriterOps (W : Type) where
  write_chunk : W → Digest → Bytes → W × Except ObjectError ChunkPointer
  flush : W → W × Except ObjectError Unit

/-- `RoundRobinBalancer<W>` from `object/write_balancer.rs`.  The bounded
flume channel of capacity `writers` is modelled, for a sequential
execution, as a FIFO queue: `recv` takes from the head, `send` appends at
the tail. -/
structure RoundRobinBalancer (W : Type) where
  queue : List W
  writers : Nat

/-- `RoundRobinBalancer::new(writer, writers)`: enqueues `writers` clones
of `writer` into a channel of capacity `writers`.  `clone` is the `Clone`
impl of `W`. -/
def RoundRobinBalancer.new {W : Type} (clone : W → W) (writer : W)
    (writers : Nat) : RoundRobinBalancer W :=
  { queue := List.replicate writers (clone writer), writers := writers }

/-- `Writer::write_chunk` for the balancer: dequeue a writer, run its
`write_chunk`, re-enqueue it unconditionally, and only then return the
inner result.  An empty queue models `recv` failing (`ObjectError::Fatal`
in the source; in a live sequential run the queue is never empty). -/
def RoundRobinBalancer.write_chunk {W : Type} (ops : WriterOps W)
    (b : RoundRobinBalancer W) (hash : Digest) (data : Bytes) :
    RoundRobinBalancer W × Except ObjectError ChunkPointer :=
  match b.queue with
  | [] => (b, .error .Fatal)
  | w :: rest =>
    let step := ops.write_chunk w hash data
    ({ b with queue := rest ++ [step.1] }, step.2)

/-- The loop body of `RoundRobinBalancer::flush`: `writers` iterations of
dequeue / `writer.flush()?` / re-enqueue.  The `?` in the source returns
the error *before* the re-enqueue, so a writer whose flush fails is
dropped from the queue. -/
def flushLoop {W : Type} (ops : WriterOps W) :
    Nat → RoundRobinBalancer W → RoundRobinBalancer W × Except ObjectError Unit
  | 0, b => (b, .ok ())
  | k + 1, b =>
    match b.queue with
    | [] => (b, .error .Fatal)
    | w :: rest =>
      let step := ops.flush w
      match step.2 with
      | .error e => ({ b with queue := rest }, .error e)
      | .ok () => flushLoop ops k { b with queue := rest ++ [step.1] }

/-- `Writer::flush` for the balancer. -/
def RoundRobinBalancer.flush {W : Type} (ops : WriterOps W)
    (b : RoundRobinBalancer W) : RoundRobinBalancer W × Except ObjectError Unit :=
  flushLoop ops b.writers b

/-- When every writer flush succeeds, one pass of the flush loop over the
first `k` queue entries flushes each of them once and rotates them, in
order, to the back of the queue. -/
theorem flushLoop_all_ok {W : Type} (ops : WriterOps W)
    (hok : ∀ w, (ops.flush w).2 = .ok ()) :
    ∀ (k : Nat) (l rest : List W) (n : Nat), l.length = k →
      flushLoop ops k ⟨l ++ rest, n⟩
        = (⟨rest ++ l.map (fun w => (ops.flush w).1), n⟩, .ok ()) := by
  intro k
  induction k with
  | zero =>
    intro l rest n hl
    rw [List.length_eq_zero] at hl
    subst hl
    simp [flushLoop]
  | succ k ih =>
    intro l rest n hl
    match l with
    | [] => simp at hl
    | w :: l' =>
      simp only [List.length_cons, Nat.succ.injEq] at hl
      simp only [flushLoop, List.cons_append, hok w]
      rw [List.append_assoc, ih l' (rest ++ [(ops.flush w).1]) n hl]
      simp

/-- A writer whose `flush` always fails; used to exercise the balancer's
error path. -/
def failingOps : WriterOps Nat :=
  { write_chunk := fun w _ _ => (w, .ok ⟨⟩)
    flush := fun w => (w, .error .Fatal) }

/-- C1 (code bug): the claim (and the spec invariant "no writer is ever
dropped on the error path") requires `flush` to re-enqueue a writer even
when that writer's `flush` fails.  In the source, `writer.flush()?`
returns before `enqueue.send(writer)`, so the failing writer is dropped.
Concretely, for a balancer built with `N = 1` over a writer whose flush
fails, after `flush` the channel holds `0` writers instead of `1` (a later
`flush` or `write_chunk` would block forever on the empty channel).
`write_chunk` itself does re-enqueue before returning, which shows the
dropped writer in `flush` is a slip, not a design choice. -/
theorem C1_flush_drops_writer :
    (RoundRobinBalancer.flush failingOps
        (RoundRobinBalancer.new id 0 1)).1.queue.length = 0
    ∧ (RoundRobinBalancer.flush failingOps
        (RoundRobinBalancer.new id 0 1)).2 = .error .Fatal
    ∧ (RoundRobinBalancer.new id (0 : Nat) 1).queue.length = 1
    ∧ (RoundRobinBalancer.write_chunk failingOps
        (RoundRobinBalancer.new id 0 1) [] []).1.queue.length = 1 := by
  refine ⟨rfl, rfl, rfl, rfl⟩

/-- Modelled from the spec: the chunk writer of §4.4 as the balancer sees
it.  `write_chunk` buffers the submitted `(hash, data)` chunk in the
writer's current object (`pending`); `flush` persists every buffered chunk
to the backend (`persisted`) and leaves the writer reusable with an empty
current object.  The concrete `AEADWriter` is outside the excerpted
sources. -/
structure ModelWriter where
  pending : List (Digest × Bytes)
  persisted : List (Digest × Bytes)
  deriving DecidableEq, Repr

/-- Modelled from the spec: `Writer` impl for the spec-level chunk
writer. -/
def modelOps : WriterOps ModelWriter :=
  { write_chunk := fun w h d => ({ w with pending := w.pending ++ [(h, d)] }, .ok ⟨⟩)
    flush := fun w => (⟨[], w.persisted ++ w.pending⟩, .ok ()) }

/-- C9 (confirmed): in a sequential execution over a FIFO lease channel
holding the full pool (`queue.length = writers = N`), `flush` dequeues and
flushes each of the `N` pooled writers exactly once, re-enqueues each
after its flush (the final queue is exactly the elementwise flush of the
initial queue, in order), returns `Ok`, and afterwards every chunk
previously submitted through `write_chunk` (every `pending` entry of every
pooled writer) has been persisted to the backend and no writer holds an
unpersisted chunk. -/
theorem C9_flush_persists (b : RoundRobinBalancer ModelWriter)
    (h : b.queue.length = b.writers) :
    RoundRobinBalancer.flush modelOps b
      = (⟨b.queue.map (fun w => ⟨[], w.persisted ++ w.pending⟩), b.writers⟩, .ok ())
    ∧ ∀ w ∈ (RoundRobinBalancer.flush modelOps b).1.queue,
        w.pending = [] := by
  have hok : ∀ w : ModelWriter, (modelOps.flush w).2 = .ok () := fun _ => rfl
  have key : RoundRobinBalancer.flush modelOps b
      = (⟨b.queue.map (fun w => ⟨[], w.persisted ++ w.pending⟩), b.writers⟩, .ok ()) := by
    have := flushLoop_all_ok modelOps hok b.writers b.queue [] b.writers h
    simp only [List.append_nil, List.nil_append] at this
    have hb : b = ⟨b.queue, b.writers⟩ := rfl
    rw [RoundRobinBalancer.flush, hb]
    exact this
  refine ⟨key, ?_⟩
  intro w hw
  rw [key] at hw
  simp only [List.mem_map] at hw
  obtain ⟨w', _, rfl⟩ := hw
  rfl

theorem C9_flush_persists_witness :
    RoundRobinBalancer.flush modelOps
        ⟨[⟨[([1], [5])], []⟩, ⟨[([2], [6])], [([3], [7])]⟩], 2⟩
      = (⟨[⟨[], [([1], [5])]⟩, ⟨[], [([3], [7]), ([2], [6])]⟩], 2⟩, .ok ()) :=
  ((C9_flush_persists ⟨[⟨[([1], [5])], []⟩, ⟨[([2], [6])], [([3], [7])]⟩], 2⟩
      (by decide)).1)

/-- `CryptoError` variants reachable from `yubikey_scheme.rs` (the enum
itself lives in the crate's `crypto` module; the spec's error table §7
lists these kinds). -/
inductive CryptoError where
  | Fatal
  | AeadFailed
  | InvalidHeader
  deriving DecidableEq, Repr

/-- Modelled from the spec: `RawKey` is a 32-byte secret (§3), so
`KEY_SIZE = 32`; the constant is defined in the crate's `crypto` module. -/
def KEY_SIZE : Nat := 32

/-- `type Nonce = [u8; 12]` (`yubikey_scheme.rs`). -/
def NONCE_SIZE : Nat := 12

/-- `type Challenge = [u8; 64]` (`yubikey_scheme.rs`). -/
def CHALLENGE_SIZE : Nat := 64

/-- `type Response = [u8; 20]` (`yubikey_scheme.rs`). -/
def RESPONSE_SIZE : Nat := 20

/-- Modelled from the spec: the AEAD tag is 16 bytes (§3 layout); the
`Tag` type lives outside the excerpted sources. -/
def TAG_SIZE : Nat := 16

/-- Modelled from the spec: `SealedHeader` is exactly 512 bytes (§3, §6);
the type lives outside the excerpted sources. -/
def SEALED_HEADER_SIZE : Nat := 512

/-- `HEADER_PAYLOAD` from `yubikey_scheme.rs`:
`size_of::<SealedHeader>() - size_of::<Tag>() - size_of::<Nonce>() - size_of::<Challenge>()`. -/
def HEADER_PAYLOAD : Nat :=
  SEALED_HEADER_SIZE - TAG_SIZE - NONCE_SIZE - CHALLENGE_SIZE

/-- `HEADER_CYPHERTEXT` from `yubikey_scheme.rs`:
`size_of::<SealedHeader>() - size_of::<Nonce>() - size_of::<Challenge>()`. -/
def HEADER_CYPHERTEXT : Nat :=
  SEALED_HEADER_SIZE - NONCE_SIZE - CHALLENGE_SIZE

/-- Modelled from the spec: the AES-256-GCM-equivalent AEAD behind
`get_aead` (§4.2): `enc key nonce msg` returns the equal-length
ciphertext and a 16-byte tag (ring's `seal_in_place_separate_tag`);
`dec key nonce ct tag` returns the plaintext when verification
succeeds and `none` when it fails (ring's `open_in_place`, whose input
`ct ++ tag` is split here); opening what was sealed under the same key and
nonce succeeds and returns the original message. -/
structure AeadModel where
  enc : Bytes → Bytes → Bytes → Bytes × Bytes
  dec : Bytes → Bytes → Bytes → Bytes → Option Bytes
  enc_fst_length : ∀ k n m, (enc k n m).1.length = m.length
  enc_snd_length : ∀ k n m, (enc k n m).2.length = TAG_SIZE
  dec_enc : ∀ k n m, dec k n (enc k n m).1 (enc k n m).2 = some m

/-- Modelled from the spec: the `Mode` discriminator persisted as one byte
(§3).  `YubikeyCR::with_credentials` always stores `Mode::Symmetric`; the
discriminant space is closed and unknown bytes fail with
`InvalidHeader`. -/
inductive Mode where
  | symmetric
  deriving DecidableEq, Repr

/-- Modelled from the spec: the byte persisted for each `Mode` variant. -/
def Mode.toByte : Mode → Nat
  | .symmetric => 0

/-- Modelled from the spec: `Mode::try_from` on the persisted byte;
unknown values fail with `InvalidHeader` (§3). -/
def Mode.tryFrom (b : Nat) : Except CryptoError Mode :=
  if b = 0 then .ok .symmetric else .error .InvalidHeader

/-- Modelled from the spec: the `Symmetric` `KeySource` (§4.2), holding
the master key and the per-archive convergence key. -/
structure Symmetric where
  master_key : Bytes
  convergence_key : Bytes
  deriving DecidableEq, Repr

/-- Modelled from the spec: `Mode::keysource` reconstructs the inner
`KeySource` for the persisted mode from the master key and the recovered
convergence key. -/
def Mode.keysource (_ : Mode) (master_key convergence_key : Bytes) : Symmetric :=
  ⟨master_key, convergence_key⟩

/-- `YubikeyCR` from `yubikey_scheme.rs` (the `ykconfig` device handle is
absorbed into the device oracle below). -/
structure YubikeyCR where
  inner : Symmetric
  master_key : Bytes
  mode : Mode
  deriving DecidableEq, Repr

/-- `YubikeyCR::expose_convergence_key` delegates to `inner`. -/
def YubikeyCR.expose_convergence_key (k : YubikeyCR) : Bytes :=
  k.inner.convergence_key

/-- `CleartextHeader`: the root chunk pointer (88 bytes on disk) plus the
reconstructed key source. -/
structure CleartextHeader where
  root_ptr : Bytes
  key : YubikeyCR
  deriving DecidableEq, Repr

/-- Modelled from the spec: `Mode::encode_root_to` writes
`root_ptr(88) || mode(1) || convergence_key(32)` at offset 0 of the
output (§4.2 step 2); the zero padding up to `HEADER_PAYLOAD` is already
present in the zero-initialised output buffer. -/
def encode_root_to (rootPtr : Bytes) (modeByte : Nat) (ck : Bytes) : Bytes :=
  rootPtr ++ [modeByte] ++ ck

/-- Modelled from the spec: `RawChunkPointer::parse` reads the 88-byte
root pointer from the front of the decrypted payload and returns the
position after it. -/
def RawChunkPointer.parse (b : Bytes) : Nat × Bytes :=
  (88, b.take 88)

/-- `header_key` from `yubikey_scheme.rs`: builds the 52-byte buffer
`master_key || challenge_response_hmac(challenge)` by two
`copy_from_slice` calls and derives the AEAD key with
`blake3::derive_key` under the fixed context string.  `device` is the
`Yubico::challenge_response_hmac` oracle (`none` models any device
failure, mapped to `CryptoError::Fatal`); `dk` is `blake3::derive_key`. -/
def header_key (dk : String → Bytes → Bytes) (device : Bytes → Option Bytes)
    (master_key challenge : Bytes) : Except CryptoError Bytes :=
  let k0 : Bytes := List.replicate (KEY_SIZE + RESPONSE_SIZE) 0
  match device challenge with
  | none => .error .Fatal
  | some resp =>
    let k1 := setSlice k0 0 master_key
    let k2 := setSlice k1 KEY_SIZE resp
    .ok (dk "zerostash.com 2022 yubikey challenge-response" k2)

/-- `seal_header` from `yubikey_scheme.rs`.  The `SystemRandom` draws are
passed in as `nonce` (12 bytes) and `challenge` (64 bytes); the steps
mirror the source: zero output, encode the cleartext at offset 0, copy
the nonce to `HEADER_CYPHERTEXT`, derive the header key via the device,
AEAD-seal `[0, HEADER_PAYLOAD)` in place, then write the tag at
`HEADER_PAYLOAD` and the challenge after the nonce. -/
def seal_header (aead : AeadModel) (dk : String → Bytes → Bytes)
    (device : Bytes → Option Bytes) (master_key : Bytes) (mode : Mode)
    (header : CleartextHeader) (nonce challenge : Bytes) :
    Except CryptoError Bytes :=
  let output0 : Bytes := List.replicate SEALED_HEADER_SIZE 0
  let encoded := encode_root_to header.root_ptr mode.toByte
    header.key.expose_convergence_key
  let output1 := setSlice output0 0 encoded
  let output2 := setSlice output1 HEADER_CYPHERTEXT nonce
  match header_key dk device master_key challenge with
  | .error e => .error e
  | .ok hk =>
    let sealres := aead.enc hk nonce (output2.take HEADER_PAYLOAD)
    let output3 := setSlice output2 0 sealres.1
    let output4 := setSlice output3 HEADER_PAYLOAD sealres.2
    let output5 := setSlice output4 (HEADER_CYPHERTEXT + NONCE_SIZE) challenge
    .ok output5

/-- `open_header` from `yubikey_scheme.rs`: read the stored challenge,
derive the header key via the device, AEAD-open
`[0, HEADER_CYPHERTEXT)` (ciphertext plus trailing tag) under the stored
nonce, parse root pointer / mode byte / convergence key, and rebuild the
`YubikeyCR` key source around the mode's inner key source. -/
def open_header (aead : AeadModel) (dk : String → Bytes → Bytes)
    (device : Bytes → Option Bytes) (master_key : Bytes) (sealed : Bytes) :
    Except CryptoError CleartextHeader :=
  let challenge := sealed.drop (HEADER_CYPHERTEXT + NONCE_SIZE)
  match header_key dk device master_key challenge with
  | .error e => .error e
  | .ok hk =>
    let nonce := (sealed.drop HEADER_CYPHERTEXT).take NONCE_SIZE
    let ct := sealed.take HEADER_PAYLOAD
    let tag := (sealed.drop HEADER_PAYLOAD).take TAG_SIZE
    match aead.dec hk nonce ct tag with
    | none => .error .AeadFailed
    | some payload =>
      let parsed := RawChunkPointer.parse payload
      let modeByte := payload.getD parsed.1 0
      let ck := (payload.drop (parsed.1 + 1)).take KEY_SIZE
      match Mode.tryFrom modeByte with
      | .error e => .error e
      | .ok m =>
        .ok ⟨parsed.2, ⟨m.keysource master_key ck, master_key, m⟩⟩

theorem take_append_chunk {a b : Bytes} {n m : Nat} (h : a.length = n) :
    (a ++ b).take (n + m) = a ++ b.take m := by
  subst h
  exact List.take_append m

theorem drop_append_chunk {a b : Bytes} {n m : Nat} (h : a.length = n) :
    (a ++ b).drop (n + m) = b.drop m := by
  subst h
  exact List.drop_append m

theorem replicate_split (m k : Nat) :
    List.replicate (m + k) (0 : Nat) = List.replicate m 0 ++ List.replicate k 0 :=
  List.append_replicate_replicate.symm

theorem sealStep1 {e : Bytes} (he : e.length = 121) :
    setSlice (List.replicate 512 0) 0 e = e ++ List.replicate 391 0 := by
  rw [setSlice_zero, List.drop_replicate, he]

theorem sealStep2 {e nonce : Bytes} (he : e.length = 121)
    (hn : nonce.length = 12) :
    setSlice (e ++ List.replicate 391 0) 436 nonce
      = e ++ (List.replicate 315 0 ++ (nonce ++ List.replicate 64 0)) := by
  have htake : (e ++ List.replicate 391 0).take 436 = e ++ List.replicate 315 0 := by
    rw [show (436 : Nat) = 121 + 315 from by norm_num, take_append_chunk he,
      show (391 : Nat) = 315 + 76 from by norm_num, replicate_split,
      List.take_left' (List.length_replicate 315 0)]
  have hdrop : (e ++ List.replicate 391 0).drop (436 + nonce.length)
      = List.replicate 64 0 := by
    rw [hn, show (436 + 12 : Nat) = 121 + 327 from by norm_num,
      drop_append_chunk he, show (391 : Nat) = 327 + 64 from by norm_num,
      replicate_split, List.drop_left' (List.length_replicate 327 0)]
  rw [setSlice, htake, hdrop, List.append_assoc, List.append_assoc]

theorem sealStep3 {e nonce : Bytes} (he : e.length = 121) :
    (e ++ (List.replicate 315 0 ++ (nonce ++ List.replicate 64 0))).take 420
      = e ++ List.replicate 299 0 := by
  rw [show (420 : Nat) = 121 + 299 from by norm_num, take_append_chunk he,
    show (315 : Nat) = 299 + 16 from by norm_num, replicate_split,
    List.append_assoc, List.take_left' (List.length_replicate 299 0)]

theorem sealStep4 {e nonce ct : Bytes} (he : e.length = 121)
    (hct : ct.length = 420) :
    setSlice (e ++ (List.replicate 315 0 ++ (nonce ++ List.replicate 64 0))) 0 ct
      = ct ++ (List.replicate 16 0 ++ (nonce ++ List.replicate 64 0)) := by
  rw [setSlice_zero, hct, show (420 : Nat) = 121 + 299 from by norm_num,
    drop_append_chunk he, show (315 : Nat) = 299 + 16 from by norm_num,
    replicate_split, List.append_assoc, List.drop_left' (List.length_replicate 299 0)]

theorem sealStep5 {nonce ct tag : Bytes} (hct : ct.length = 420)
    (htag : tag.length = 16) :
    setSlice (ct ++ (List.replicate 16 0 ++ (nonce ++ List.replicate 64 0))) 420 tag
      = ct ++ (tag ++ (nonce ++ List.replicate 64 0)) := by
  have htake : (ct ++ (List.replicate 16 0 ++ (nonce ++ List.replicate 64 0))).take 420
      = ct := List.take_left' hct
  have hdrop : (ct ++ (List.replicate 16 0 ++ (nonce ++ List.replicate 64 0))).drop
      (420 + tag.length) = nonce ++ List.replicate 64 0 := by
    rw [htag, drop_append_chunk hct, List.drop_left' (List.length_replicate 16 0)]
  rw [setSlice, htake, hdrop, List.append_assoc]

theorem sealStep6 {nonce ct tag ch : Bytes} (hct : ct.length = 420)
    (htag : tag.length = 16) (hn : nonce.length = 12) (hch : ch.length = 64) :
    setSlice (ct ++ (tag ++ (nonce ++ List.replicate 64 0))) 448 ch
      = ct ++ (tag ++ (nonce ++ ch)) := by
  have htake : (ct ++ (tag ++ (nonce ++ List.replicate 64 0))).take 448
      = ct ++ (tag ++ nonce) := by
    rw [show (448 : Nat) = 420 + 28 from by norm_num, take_append_chunk hct,
      show (28 : Nat) = 16 + 12 from by norm_num, take_append_chunk htag,
      List.take_append_of_le_length (le_of_eq hn.symm),
      List.take_of_length_le (le_of_eq hn)]
  have hdrop : (ct ++ (tag ++ (nonce ++ List.replicate 64 0))).drop (448 + ch.length)
      = [] := by
    rw [hch, show (448 + 64 : Nat) = 420 + 92 from by norm_num,
      drop_append_chunk hct, show (92 : Nat) = 16 + 76 from by norm_num,
      drop_append_chunk htag, show (76 : Nat) = 12 + 64 from by norm_num,
      drop_append_chunk hn,
      List.drop_eq_nil_of_le (le_of_eq (List.length_replicate 64 0))]
  rw [setSlice, htake, hdrop, List.append_nil, List.append_assoc, List.append_assoc]

/-- The exact bytes produced by `seal_header` when the device call
succeeds: AEAD ciphertext of the padded payload, then tag, nonce and
challenge. -/
theorem seal_header_eq (aead : AeadModel) (dk : String → Bytes → Bytes)
    (device : Bytes → Option Bytes) (master_key : Bytes) (mode : Mode)
    (header : CleartextHeader) (nonce challenge hk : Bytes)
    (hroot : header.root_ptr.length = 88)
    (hck : header.key.expose_convergence_key.length = 32)
    (hnonce : nonce.length = 12) (hch : challenge.length = 64)
    (hhk : header_key dk device master_key challenge = .ok hk) :
    seal_header aead dk device master_key mode header nonce challenge
      = .ok ((aead.enc hk nonce (encode_root_to header.root_ptr mode.toByte
              header.key.expose_convergence_key ++ List.replicate 299 0)).1
          ++ ((aead.enc hk nonce (encode_root_to header.root_ptr mode.toByte
              header.key.expose_convergence_key ++ List.replicate 299 0)).2
          ++ (nonce ++ challenge))) := by
  have he : (encode_root_to header.root_ptr mode.toByte
      header.key.expose_convergence_key).length = 121 := by
    simp [encode_root_to, hroot, hck]
  have hC : HEADER_CYPHERTEXT = 436 := rfl
  have hP : HEADER_PAYLOAD = 420 := rfl
  have hN : NONCE_SIZE = 12 := rfl
  have hS : SEALED_HEADER_SIZE = 512 := rfl
  simp only [seal_header, hhk, hC, hP, hN, hS]
  rw [sealStep1 he, sealStep2 he hnonce, sealStep3 he]
  have hct : (aead.enc hk nonce (encode_root_to header.root_ptr mode.toByte
      header.key.expose_convergence_key ++ List.replicate 299 0)).1.length = 420 := by
    rw [aead.enc_fst_length]
    simp only [List.length_append, List.length_replicate, he]
  have htag : (aead.enc hk nonce (encode_root_to header.root_ptr mode.toByte
      header.key.expose_convergence_key ++ List.replicate 299 0)).2.length = 16 :=
    aead.enc_snd_length hk nonce _
  rw [sealStep4 he hct, sealStep5 hct htag, sealStep6 hct htag hnonce hch]

/-- C5 (confirmed): for any cleartext header (88-byte root pointer,
symmetric mode, 32-byte convergence key), fixed master key and a
deterministic device oracle that answers the drawn challenge, opening the
sealed header produced by `seal_header` recovers the header exactly: the
same `root_ptr`, and a reconstructed `KeySource` exposing the same
`convergence_key`. -/
theorem C5_header_roundtrip (aead : AeadModel) (dk : String → Bytes → Bytes)
    (device : Bytes → Option Bytes) (master_key : Bytes)
    (header : CleartextHeader) (nonce challenge resp sealed : Bytes)
    (hroot : header.root_ptr.length = 88)
    (hck : header.key.expose_convergence_key.length = 32)
    (hnonce : nonce.length = 12) (hch : challenge.length = 64)
    (hdev : device challenge = some resp)
    (hseal : seal_header aead dk device master_key .symmetric header nonce
      challenge = .ok sealed) :
    ∃ opened, open_header aead dk device master_key sealed = .ok opened
      ∧ opened.root_ptr = header.root_ptr
      ∧ opened.key.expose_convergence_key
          = header.key.expose_convergence_key := by
  obtain ⟨hk, hhk⟩ : ∃ hk, header_key dk device master_key challenge = .ok hk := by
    simp only [header_key, hdev]
    exact ⟨_, rfl⟩
  have hbig := seal_header_eq aead dk device master_key .symmetric header nonce
    challenge hk hroot hck hnonce hch hhk
  rw [hseal] at hbig
  have hmode : Mode.toByte .symmetric = 0 := rfl
  have hpayload : encode_root_to header.root_ptr (Mode.toByte .symmetric)
        header.key.expose_convergence_key ++ List.replicate 299 0
      = header.root_ptr ++ ([Mode.toByte .symmetric]
          ++ (header.key.expose_convergence_key ++ List.replicate 299 0)) := by
    rw [encode_root_to, List.append_assoc, List.append_assoc]
  obtain ⟨ct, tag, hct, htag, hdec, hsealed⟩ :
      ∃ ct tag : Bytes, ct.length = 420 ∧ tag.length = 16
        ∧ aead.dec hk nonce ct tag
            = some (header.root_ptr ++ ([Mode.toByte .symmetric]
                ++ (header.key.expose_convergence_key ++ List.replicate 299 0)))
        ∧ sealed = ct ++ (tag ++ (nonce ++ challenge)) := by
    refine ⟨(aead.enc hk nonce (encode_root_to header.root_ptr
        (Mode.toByte .symmetric) header.key.expose_convergence_key
        ++ List.replicate 299 0)).1,
      (aead.enc hk nonce (encode_root_to header.root_ptr
        (Mode.toByte .symmetric) header.key.expose_convergence_key
        ++ List.replicate 299 0)).2, ?_, aead.enc_snd_length hk nonce _, ?_, ?_⟩
    · rw [aead.enc_fst_length]
      simp only [List.length_append, List.length_replicate, encode_root_to,
        List.length_cons, List.length_nil, hroot, hck]
    · rw [← hpayload]
      exact aead.dec_enc hk nonce _
    · exact Except.ok.inj hbig
  subst hsealed
  have hchal : (ct ++ (tag ++ (nonce ++ challenge))).drop
      (HEADER_CYPHERTEXT + NONCE_SIZE) = challenge := by
    rw [show HEADER_CYPHERTEXT + NONCE_SIZE = 420 + 28 from rfl,
      drop_append_chunk hct, show (28 : Nat) = 16 + 12 from by norm_num,
      drop_append_chunk htag, List.drop_left' hnonce]
  have hnon : ((ct ++ (tag ++ (nonce ++ challenge))).drop
      HEADER_CYPHERTEXT).take NONCE_SIZE = nonce := by
    rw [show HEADER_CYPHERTEXT = 420 + 16 from rfl, drop_append_chunk hct,
      List.drop_left' htag, show NONCE_SIZE = 12 from rfl,
      List.take_append_of_le_length (le_of_eq hnonce.symm),
      List.take_of_length_le (le_of_eq hnonce)]
  have hcts : (ct ++ (tag ++ (nonce ++ challenge))).take HEADER_PAYLOAD = ct := by
    rw [show HEADER_PAYLOAD = 420 from rfl]
    exact List.take_left' hct
  have htags : ((ct ++ (tag ++ (nonce ++ challenge))).drop
      HEADER_PAYLOAD).take TAG_SIZE = tag := by
    rw [show HEADER_PAYLOAD = 420 from rfl, List.drop_left' hct,
      show TAG_SIZE = 16 from rfl,
      List.take_append_of_le_length (le_of_eq htag.symm),
      List.take_of_length_le (le_of_eq htag)]
  have hb : (header.root_ptr ++ ([Mode.toByte .symmetric]
      ++ (header.key.expose_convergence_key ++ List.replicate 299 0))).getD 88 0
      = 0 := by
    rw [List.getD_eq_getElem?_getD, List.getElem?_append_right (le_of_eq hroot),
      hroot, show (88 - 88 : Nat) = 0 from rfl, List.singleton_append,
      List.getElem?_cons_zero, Option.getD_some, hmode]
  have hr : (header.root_ptr ++ ([Mode.toByte .symmetric]
      ++ (header.key.expose_convergence_key ++ List.replicate 299 0))).take 88
      = header.root_ptr := List.take_left' hroot
  have hcks : ((header.root_ptr ++ ([Mode.toByte .symmetric]
      ++ (header.key.expose_convergence_key ++ List.replicate 299 0))).drop
      (88 + 1)).take KEY_SIZE = header.key.expose_convergence_key := by
    rw [drop_append_chunk hroot, List.drop_left' (by rfl : [Mode.toByte
      .symmetric].length = 1), show KEY_SIZE = 32 from rfl,
      List.take_append_of_le_length (le_of_eq hck.symm),
      List.take_of_length_le (le_of_eq hck)]
  refine ⟨⟨header.root_ptr, ⟨⟨master_key, header.key.expose_convergence_key⟩,
    master_key, .symmetric⟩⟩, ?_, rfl, rfl⟩
  simp only [open_header, hchal, hhk, hnon, hcts, htags, hdec,
    RawChunkPointer.parse, hb, hr, hcks, Mode.tryFrom, if_true,
    Mode.keysource]

/-- C6 (confirmed): with `HC = HEADER_CYPHERTEXT = 512 - 12 - 64 = 436`
and `HP = HEADER_PAYLOAD = HC - 16 = 420`, every sealed header produced by
the hardware-CR `seal_root` is exactly 512 bytes: AEAD ciphertext of the
encoded payload in `[0, HP)`, the 16-byte tag at `[HP, HP + 16)`, the
12-byte nonce at `[HC, HC + 12)`, and the 64-byte challenge in plaintext
at `[HC + 12, 512)`. -/
theorem C6_sealed_layout (aead : AeadModel) (dk : String → Bytes → Bytes)
    (device : Bytes → Option Bytes) (master_key : Bytes) (mode : Mode)
    (header : CleartextHeader) (nonce challenge resp sealed : Bytes)
    (hroot : header.root_ptr.length = 88)
    (hck : header.key.expose_convergence_key.length = 32)
    (hnonce : nonce.length = 12) (hch : challenge.length = 64)
    (hdev : device challenge = some resp)
    (hseal : seal_header aead dk device master_key mode header nonce challenge
      = .ok sealed) :
    HEADER_CYPHERTEXT = 436 ∧ HEADER_PAYLOAD = 420 ∧ sealed.length = 512
    ∧ ∃ hk, header_key dk device master_key challenge = .ok hk
      ∧ sealed.take HEADER_PAYLOAD
          = (aead.enc hk nonce (encode_root_to header.root_ptr mode.toByte
              header.key.expose_convergence_key ++ List.replicate 299 0)).1
      ∧ (sealed.drop HEADER_PAYLOAD).take TAG_SIZE
          = (aead.enc hk nonce (encode_root_to header.root_ptr mode.toByte
              header.key.expose_convergence_key ++ List.replicate 299 0)).2
      ∧ (sealed.drop HEADER_CYPHERTEXT).take NONCE_SIZE = nonce
      ∧ sealed.drop (HEADER_CYPHERTEXT + NONCE_SIZE) = challenge := by
  obtain ⟨hk, hhk⟩ : ∃ hk, header_key dk device master_key challenge = .ok hk := by
    simp only [header_key, hdev]
    exact ⟨_, rfl⟩
  have hbig := seal_header_eq aead dk device master_key mode header nonce
    challenge hk hroot hck hnonce hch hhk
  rw [hseal] at hbig
  have hsl := Except.ok.inj hbig
  have hct : (aead.enc hk nonce (encode_root_to header.root_ptr mode.toByte
      header.key.expose_convergence_key ++ List.replicate 299 0)).1.length
      = 420 := by
    rw [aead.enc_fst_length]
    simp only [List.length_append, List.length_replicate, encode_root_to,
      List.length_cons, List.length_nil, hroot, hck]
  have hT : (aead.enc hk nonce (encode_root_to header.root_ptr mode.toByte
      header.key.expose_convergence_key ++ List.replicate 299 0)).2.length
      = 16 := aead.enc_snd_length hk nonce _
  refine ⟨rfl, rfl, ?_, hk, hhk, ?_, ?_, ?_, ?_⟩
  · rw [hsl]
    simp only [List.length_append, hct, hT, hnonce, hch]
  · rw [hsl, show HEADER_PAYLOAD = 420 from rfl]
    exact List.take_left' hct
  · rw [hsl, show HEADER_PAYLOAD = 420 from rfl, List.drop_left' hct,
      show TAG_SIZE = 16 from rfl,
      List.take_append_of_le_length (le_of_eq hT.symm),
      List.take_of_length_le (le_of_eq hT)]
  · rw [hsl, show HEADER_CYPHERTEXT = 420 + 16 from rfl,
      drop_append_chunk hct, List.drop_left' hT,
      show NONCE_SIZE = 12 from rfl,
      List.take_append_of_le_length (le_of_eq hnonce.symm),
      List.take_of_length_le (le_of_eq hnonce)]
  · rw [hsl, show HEADER_CYPHERTEXT + NONCE_SIZE = 420 + 28 from rfl,
      drop_append_chunk hct, show (28 : Nat) = 16 + 12 from by norm_num,
      drop_append_chunk hT, List.drop_left' hnonce]

/-- C7 (confirmed): for a 32-byte master key and any challenge the device
answers with a 20-byte response, the hardware-variant header AEAD key is
`blake3::derive_key` with context string
`zerostash.com 2022 yubikey challenge-response` applied to the 52-byte
concatenation of the master key followed by the device response, in that
order. -/
theorem C7_header_key (dk : String → Bytes → Bytes)
    (device : Bytes → Option Bytes) (master_key challenge resp : Bytes)
    (hmk : master_key.length = 32) (hresp : resp.length = 20)
    (hdev : device challenge = some resp) :
    header_key dk device master_key challenge
      = .ok (dk "zerostash.com 2022 yubikey challenge-response"
          (master_key ++ resp))
    ∧ (master_key ++ resp).length = 52 := by
  constructor
  · simp only [header_key, hdev]
    rw [show KEY_SIZE + RESPONSE_SIZE = 32 + 20 from rfl, replicate_split,
      setSlice_zero, hmk, List.drop_left' (List.length_replicate 32 0),
      setSlice, show KEY_SIZE = 32 from rfl, List.take_left' hmk, hresp,
      drop_append_chunk hmk,
      List.drop_eq_nil_of_le (le_of_eq (List.length_replicate 20 0)),
      List.append_nil]
  · simp only [List.length_append, hmk, hresp]

/-- C8 (confirmed): `seal_root` and `open_root` fail with
`CryptoError::Fatal` exactly when the device call fails (for any reason),
`open_root` fails with `CryptoError::AeadFailed` exactly when AEAD
verification of the header fails, and the two error values are
distinct. -/
theorem C8_error_kinds (aead : AeadModel) (dk : String → Bytes → Bytes)
    (device : Bytes → Option Bytes) :
    (∀ master_key mode header nonce challenge,
      seal_header aead dk device master_key mode header nonce challenge
          = .error .Fatal
        ↔ device challenge = none)
    ∧ (∀ master_key sealed,
      open_header aead dk device master_key sealed = .error .Fatal
        ↔ device (sealed.drop (HEADER_CYPHERTEXT + NONCE_SIZE)) = none)
    ∧ (∀ master_key sealed hk,
      header_key dk device master_key
          (sealed.drop (HEADER_CYPHERTEXT + NONCE_SIZE)) = .ok hk →
      (open_header aead dk device master_key sealed = .error .AeadFailed
        ↔ aead.dec hk ((sealed.drop HEADER_CYPHERTEXT).take NONCE_SIZE)
            (sealed.take HEADER_PAYLOAD)
            ((sealed.drop HEADER_PAYLOAD).take TAG_SIZE) = none))
    ∧ CryptoError.Fatal ≠ CryptoError.AeadFailed := by
  refine ⟨?_, ?_, ?_, fun h => CryptoError.noConfusion h⟩
  · intro master_key mode header nonce challenge
    cases hd : device challenge with
    | none =>
      simp only [seal_header, header_key, hd]
    | some r =>
      simp only [seal_header, header_key, hd]
      exact iff_of_false (fun h => Except.noConfusion h)
        (fun h => Option.noConfusion h)
  · intro master_key sealed
    cases hd : device (sealed.drop (HEADER_CYPHERTEXT + NONCE_SIZE)) with
    | none =>
      simp only [open_header, header_key, hd]
    | some r =>
      simp only [open_header, header_key, hd]
      cases hdec : aead.dec (dk "zerostash.com 2022 yubikey challenge-response"
          (setSlice (setSlice (List.replicate (KEY_SIZE + RESPONSE_SIZE) 0) 0
            master_key) KEY_SIZE r))
          ((sealed.drop HEADER_CYPHERTEXT).take NONCE_SIZE)
          (sealed.take HEADER_PAYLOAD)
          ((sealed.drop HEADER_PAYLOAD).take TAG_SIZE) with
      | none =>
        simp only [hdec]
        exact iff_of_false (fun h => CryptoError.noConfusion (Except.error.inj h))
          (fun h => Option.noConfusion h)
      | some payload =>
        simp only [hdec, RawChunkPointer.parse, Mode.tryFrom]
        by_cases hbz : payload.getD 88 0 = 0
        · rw [if_pos hbz]
          exact iff_of_false (fun h => Except.noConfusion h)
            (fun h => Option.noConfusion h)
        · rw [if_neg hbz]
          exact iff_of_false (fun h => CryptoError.noConfusion (Except.error.inj h))
            (fun h => Option.noConfusion h)
  · intro master_key sealed hk hhk
    cases hd : device (sealed.drop (HEADER_CYPHERTEXT + NONCE_SIZE)) with
    | none =>
      rw [header_key] at hhk
      simp only [hd] at hhk
      exact Except.noConfusion hhk
    | some r =>
      simp only [header_key, hd] at hhk
      obtain rfl := Except.ok.inj hhk
      simp only [open_header, header_key, hd]
      cases hdec : aead.dec (dk "zerostash.com 2022 yubikey challenge-response"
          (setSlice (setSlice (List.replicate (KEY_SIZE + RESPONSE_SIZE) 0) 0
            master_key) KEY_SIZE r))
          ((sealed.drop HEADER_CYPHERTEXT).take NONCE_SIZE)
          (sealed.take HEADER_PAYLOAD)
          ((sealed.drop HEADER_PAYLOAD).take TAG_SIZE) with
      | none =>
        simp only [hdec]
      | some payload =>
        simp only [hdec, RawChunkPointer.parse, Mode.tryFrom]
        by_cases hbz : payload.getD 88 0 = 0
        · rw [if_pos hbz]
          exact iff_of_false (fun h => Except.noConfusion h)
            (fun h => Option.noConfusion h)
        · rw [if_neg hbz]
          exact iff_of_false
            (fun h => CryptoError.noConfusion (Except.error.inj h))
            (fun h => Option.noConfusion h)

/-- A degenerate but law-abiding AEAD instance used to evaluate the
theorems on concrete inputs: the ciphertext is the message itself and the
tag is 16 zero bytes; `dec` accepts exactly that tag. -/
def trivialAead : AeadModel where
  enc := fun _ _ m => (m, List.replicate 16 0)
  dec := fun _ _ c t => if t = List.replicate 16 0 then some c else none
  enc_fst_length := fun _ _ _ => rfl
  enc_snd_length := fun _ _ _ => rfl
  dec_enc := fun _ _ m => by
    show (if (List.replicate 16 0 : Bytes) = List.replicate 16 0
        then some m else none) = some m
    rw [if_pos rfl]

/-- A fixed stand-in for the `blake3::derive_key` oracle. -/
def dkW : String → Bytes → Bytes := fun _ k => k.take 32

/-- A deterministic device oracle: answers 64-byte challenges with twenty
`1` bytes and fails on anything else. -/
def deviceW : Bytes → Option Bytes := fun ch =>
  if ch.length = 64 then some (List.replicate 20 1) else none

/-- A concrete master key for the witnesses. -/
def mkW : Bytes := List.replicate 32 9

/-- A concrete cleartext header for the witnesses. -/
def hdrW : CleartextHeader :=
  ⟨List.replicate 88 2, ⟨⟨mkW, List.replicate 32 3⟩, mkW, .symmetric⟩⟩

/-- A concrete nonce for the witnesses. -/
def nonceW : Bytes := List.replicate 12 4

/-- A concrete challenge for the witnesses. -/
def chW : Bytes := List.replicate 64 5

/-- The sealed header that `seal_header` produces from the concrete
witness inputs under `trivialAead`. -/
def sealedW : Bytes :=
  (List.replicate 88 2 ++ ([0] ++ (List.replicate 32 3 ++ List.replicate 299 0)))
    ++ (List.replicate 16 0 ++ (nonceW ++ chW))

set_option maxRecDepth 40000 in
theorem C5_header_roundtrip_witness :
    ∃ opened, open_header trivialAead dkW deviceW mkW sealedW = .ok opened
      ∧ opened.root_ptr = hdrW.root_ptr
      ∧ opened.key.expose_convergence_key
          = hdrW.key.expose_convergence_key :=
  C5_header_roundtrip trivialAead dkW deviceW mkW hdrW nonceW chW
    (List.replicate 20 1) sealedW rfl rfl rfl rfl rfl rfl

set_option maxRecDepth 40000 in
theorem C6_sealed_layout_witness :
    sealedW.length = 512
    ∧ sealedW.drop (HEADER_CYPHERTEXT + NONCE_SIZE) = chW
    ∧ (sealedW.drop HEADER_CYPHERTEXT).take NONCE_SIZE = nonceW := by
  obtain ⟨-, -, hlen, hk, -, -, -, hnon, hchal⟩ :=
    C6_sealed_layout trivialAead dkW deviceW mkW .symmetric hdrW nonceW chW
      (List.replicate 20 1) sealedW rfl rfl rfl rfl rfl rfl
  exact ⟨hlen, hchal, hnon⟩

theorem C7_header_key_witness :
    header_key dkW deviceW mkW chW
      = .ok (dkW "zerostash.com 2022 yubikey challenge-response"
          (mkW ++ List.replicate 20 1))
    ∧ (mkW ++ List.replicate 20 1).length = 52 :=
  C7_header_key dkW deviceW mkW chW (List.replicate 20 1) rfl rfl rfl

set_option maxRecDepth 40000 in
theorem C8_error_kinds_witness :
    seal_header trivialAead dkW deviceW mkW .symmetric hdrW nonceW []
        = .error .Fatal
    ∧ open_header trivialAead dkW deviceW mkW [] = .error .Fatal
    ∧ open_header trivialAead dkW deviceW mkW (List.replicate 512 9)
        = .error .AeadFailed := by
  have h := C8_error_kinds trivialAead dkW deviceW
  refine ⟨(h.1 mkW .symmetric hdrW nonceW []).mpr rfl,
    (h.2.1 mkW []).mpr rfl, (h.2.2.1 mkW (List.replicate 512 9) _ rfl).mpr ?_⟩
  rfl

end Infinitree
